import Mathlib

/-!
Verification of the FloDownload stream recorder against its specification.

The definitions below are shallow embeddings of the Go sources:
* `pkg/media/stream.go` — variant poller (`VariantDownloader`),
* `pkg/media/playlist.go` — manifest writer,
* `pkg/media/segment.go` — segment fetcher (`DownloadSegment`),
* `pkg/transfer/queue.go` — transfer queue worker (`processItem`, `LoadState`),
* `pkg/processing/service.go` — post-processor
  (`ParseResolutionDirectory`, `AggregateSegmentInfo`),
* `pkg/constants/constants.go` — configuration constants.

Go machine integers that stay far from overflow in every scenario treated
here (sequence numbers, byte counts, HTTP codes) are modelled as `Nat`/`Int`;
Go strings are modelled as Lean `String` (byte-wise comparison on ASCII data
coincides with Lean's codepoint-wise comparison).  Side effects (logging,
actual socket and file I/O) are modelled by explicit parameters recording the
outcome of each effectful call, and by trace fields recording what the code
would have done.
-/

namespace FloDownload

/-- A media playlist as returned by `LoadMediaPlaylist` (playlist.go 10-29):
a starting media sequence number, the slice of segment pointers (entries may
be `nil`, hence `Option`), and the `#EXT-X-ENDLIST` flag. -/
structure MediaPlaylist where
  SeqNo : Nat
  Segments : List (Option String)
  Closed : Bool
deriving DecidableEq, Repr

/-- Mutable state of one `VariantDownloader` task (stream.go 102-180):
the `seen` dedup set (a Go `map[string]bool`, modelled as the list of keys in
insertion order) and the trace of segment keys for which a download goroutine
was spawned, in spawn order. -/
structure PollerState where
  seen : List String
  downloads : List String
deriving DecidableEq, Repr

/-- Model of `SegmentJob.Key` (segment.go 29-31): `fmt.Sprintf("%d:%s", j.Seq, j.URI)`. -/
def segmentKey (seq : Nat) (uri : String) : String :=
  s!"{seq}:{uri}"

/-- The per-iteration segment loop of `VariantDownloader` (stream.go 123-166).
For each entry: a `nil` segment is skipped; the key is derived from the
current `seq` and the URI; a key already in `seen` only advances `seq`;
otherwise the key is inserted into `seen`, a semaphore slot is acquired, a
download goroutine is spawned for the job (recorded in `downloads`), and
`seq` advances. -/
def processSegments : List (Option String) → Nat → PollerState → PollerState
  | [], _, st => st
  | none :: rest, seq, st => processSegments rest seq st
  | some uri :: rest, seq, st =>
      let key := segmentKey seq uri
      if key ∈ st.seen then
        processSegments rest (seq + 1) st
      else
        processSegments rest (seq + 1)
          { seen := st.seen ++ [key], downloads := st.downloads ++ [key] }

/-- Outcome of one pass through the body of the `for` loop in
`VariantDownloader` (stream.go 109-179), after the initial non-blocking
cancellation check. -/
inductive IterResult where
  /-- The iteration crashed with a runtime panic (nil-pointer dereference). -/
  | panicked (st : PollerState)
  /-- The playlist reported `#EXT-X-ENDLIST`; the poller returns. -/
  | exitClosed (st : PollerState)
  /-- Control reached the `waitTick` label: the poller blocks on the
  refresh ticker (or cancellation) and then starts the next iteration.
  `loggedError` records whether the playlist-error log line ran. -/
  | waitTick (loggedError : Bool) (st : PollerState)
deriving DecidableEq, Repr

/-- One iteration of `VariantDownloader` (stream.go 116-178).  `fetch` is the
result of `LoadMediaPlaylist(variant.URL)`: `none` stands for a `nil`
playlist pointer returned together with a non-nil error (every error path of
`LoadMediaPlaylist`, playlist.go 10-29, returns `nil` for the playlist).

The source reads `seq := playlist.SeqNo` (stream.go 117) *before* testing
`err` (stream.go 118), so when the fetch failed this dereferences a nil
`*m3u8.MediaPlaylist` and the goroutine panics; the error check, the log
line and the `goto waitTick` on lines 118-121 are unreachable in that case. -/
def variantIteration (fetch : Option MediaPlaylist) (st : PollerState) : IterResult :=
  match fetch with
  | none => .panicked st
  | some pl =>
      let st' := processSegments pl.Segments pl.SeqNo st
      if pl.Closed then .exitClosed st' else .waitTick false st'

/-- The poller's successive successful iterations: the segment loop runs once
per fetched playlist, threading the `seen` set and the download trace, which
live outside the loop (stream.go 107) for the lifetime of the task. -/
def runPlaylists (pls : List MediaPlaylist) (st : PollerState) : PollerState :=
  pls.foldl (fun s pl => processSegments pl.Segments pl.SeqNo s) st

/-- One entry of the manifest JSON (playlist.go 47-50). -/
structure ManifestItem where
  SeqNo : String
  Resolution : String
deriving DecidableEq, Repr

/-- State of the `ManifestWriter` (playlist.go 41-45).

In the Go source, `Index` is a `map[string]*ManifestItem`.  In the insertion
branch of `AddOrUpdateSegment` (playlist.go 75-82) the local `item` is
appended to `Segments` *by value* and the map stores `&item`, a pointer to
the escaped local — a record distinct from the slice element.  Every later
mutation through the map therefore touches only that separate record, never
the slice.  The embedding makes the two stores explicit: `Segments` is the
slice, and `Index` is an association list holding, per sequence number, the
`Resolution` field of the separately-allocated record the map points to
(its `SeqNo` field always equals the key). -/
structure ManifestWriter where
  Segments : List ManifestItem
  Index : List (String × String)
deriving DecidableEq, Repr

/-- The writer produced by `NewManifestWriter` (playlist.go 52-59): empty
segment slice and empty index. -/
def ManifestWriter.empty : ManifestWriter :=
  { Segments := [], Index := [] }

/-- Go's string `<`: lexicographic on the byte sequences.  On the ASCII data
handled here bytes and codepoints coincide, so it is lexicographic on the
character lists. -/
def goCharsLess : List Char → List Char → Bool
  | [], [] => false
  | [], _ :: _ => true
  | _ :: _, [] => false
  | a :: as, b :: bs => if a < b then true else if b < a then false else goCharsLess as bs

/-- Go's `a < b` / `b > a` on strings. -/
def goStringLess (a b : String) : Bool :=
  goCharsLess a.data b.data

/-- Association-list lookup, modelling a Go map read with `ok` flag. -/
def lookupAssoc : List (String × String) → String → Option String
  | [], _ => none
  | (k', v) :: rest, k => if k' = k then some v else lookupAssoc rest k

/-- Association-list overwrite of an existing key, modelling the mutation
`existing.Resolution = resolution` through the stored pointer. -/
def updateAssoc : List (String × String) → String → String → List (String × String)
  | [], _, _ => []
  | (k', v) :: rest, k, newV =>
      if k' = k then (k', newV) :: rest else (k', v) :: updateAssoc rest k newV

/-- Model of `AddOrUpdateSegment` (playlist.go 61-83).  If `seqNo` is already in the
index and the new label compares greater (Go byte-wise string `>`), the
record *the index points to* is upgraded — the copy inside `Segments` is
not touched (see `ManifestWriter`).  Otherwise a fresh item is appended to
`Segments` and an independent record is registered in the index. -/
def addOrUpdateSegment (m : ManifestWriter) (seqNo resolution : String) : ManifestWriter :=
  match lookupAssoc m.Index seqNo with
  | some existing =>
      if goStringLess existing resolution then
        { m with Index := updateAssoc m.Index seqNo resolution }
      else m
  | none =>
      { Segments := m.Segments ++ [{ SeqNo := seqNo, Resolution := resolution }],
        Index := m.Index ++ [(seqNo, resolution)] }

/-- The list of items `WriteManifest` serialises (playlist.go 85-114): the
`Segments` slice sorted ascending by the string `SeqNo` and marshalled to
JSON.  The file-system part is dropped; the serialised sequence of records
is the observable output. -/
def writeManifest (m : ManifestWriter) : List ManifestItem :=
  m.Segments.insertionSort (fun a b => goStringLess a.SeqNo b.SeqNo = true)

/-- The constant `constants.RefreshDelay` (constants.go 31): the untyped Go constant `3`. -/
def RefreshDelay : Nat := 3

/-- Nanoseconds in one `time.Second`. -/
def nanosPerSecond : Nat := 1000000000

/-- The period of the ticker created in `VariantDownloader` (stream.go 104):
`time.NewTicker(constants.RefreshDelay)`.  `time.NewTicker` takes a
`time.Duration`, whose unit is the nanosecond, so the untyped constant `3`
converts to `time.Duration(3)` — three *nanoseconds*. -/
def variantTickerPeriodNs : Nat := RefreshDelay

/-- The poll interval the configuration system defines: the default
`Core.RefreshDelay` is `3 * time.Second` and the `REFRESH_DELAY_SECONDS`
override is parsed as `time.Duration(parsed) * time.Second`
(config.go, embedded in nas/config.go at lines 287 and 352). -/
def configRefreshDelayNs : Nat := 3 * nanosPerSecond

/-- Statuses of `TransferStatus` (types.go 20-28). -/
inductive TransferStatus where
  | pending
  | inProgress
  | completed
  | failed
  | retrying
deriving DecidableEq, Repr

/-- Model of `TransferItem` (types.go 8-18).  `timestamp` is nanoseconds since the
epoch, `fileSize` the byte count. -/
structure TransferItem where
  id : String
  sourcePath : String
  destinationPath : String
  resolution : String
  timestamp : Int
  retryCount : Nat
  status : TransferStatus
  fileSize : Nat
  lastError : String
deriving DecidableEq, Repr

/-- The local `maxRetries` in `processItem` (queue.go 167). -/
def maxRetries : Nat := 3

/-- Observable trace of one `processItem` call (queue.go 148-208). -/
structure ProcTrace where
  /-- Completed backoff sleeps, in seconds, in order: each entry is the full
  `attempt*attempt`-second wait of one loop iteration. -/
  sleeps : List Nat
  /-- How many times `TransferFile` was invoked. -/
  transferCalls : Nat
  /-- Value of `item.RetryCount` of the worker's local copy when the function returns. -/
  retryCount : Nat
  /-- Value of `item.Status` of the worker's local copy when the function returns. -/
  status : TransferStatus
  /-- Whether the function handed the item back to the queue's heap.  The
  source of `processItem` contains no `heap.Push`/`Add` call, so this is
  `false` on every path; the field records that fact explicitly. -/
  requeued : Bool
  /-- Whether the source path was handed to the cleanup scheduler. -/
  scheduledCleanup : Bool
deriving DecidableEq, Repr

/-- The retry loop of `processItem` (queue.go 169-207), written with the
structural fuel `remaining = maxRetries + 1 - attempt`; the loop runs while
`attempt <= maxRetries`, i.e. while `remaining > 0`.

`transferOk a` is the success of the `TransferFile` call of attempt `a`;
`cancelledDuringBackoff a` tells whether `ctx.Done()` fires before the
`time.After(backoff)` of attempt `a`'s backoff select (queue.go 175-179), in
which case the function returns at once.  The guard `attempt > 0`
(queue.go 170) is modelled literally; as the counter starts at 1 it is true
on every iteration, so every attempt — including the first — is preceded by
an `attempt*attempt`-second backoff. -/
def processItemLoop (transferOk cancelledDuringBackoff : Nat → Bool) :
    Nat → Nat → List Nat → Nat → Nat → ProcTrace
  | 0, _, sleeps, retry, calls =>
      { sleeps := sleeps, transferCalls := calls, retryCount := retry,
        status := .retrying, requeued := false, scheduledCleanup := false }
  | remaining + 1, attempt, sleeps, retry, calls =>
      let afterSelect : Option (List Nat) :=
        if 0 < attempt then
          if cancelledDuringBackoff attempt then none
          else some (sleeps ++ [attempt * attempt])
        else some sleeps
      match afterSelect with
      | none =>
          { sleeps := sleeps, transferCalls := calls, retryCount := retry,
            status := .retrying, requeued := false, scheduledCleanup := false }
      | some sleeps' =>
          if transferOk attempt then
            { sleeps := sleeps', transferCalls := calls + 1, retryCount := retry,
              status := .completed, requeued := false, scheduledCleanup := true }
          else
            if attempt = maxRetries then
              { sleeps := sleeps', transferCalls := calls + 1, retryCount := retry + 1,
                status := .failed, requeued := false, scheduledCleanup := false }
            else
              processItemLoop transferOk cancelledDuringBackoff
                remaining (attempt + 1) sleeps' (retry + 1) (calls + 1)

/-- Model of `processItem` (queue.go 148-208).  `existsOnNAS` is the effective result
of the initial `FileExists` probe (an error from the probe is logged and
treated as `false`, queue.go 150-152): when `true` the item is marked
Completed and handed to cleanup without any transfer attempt.  Otherwise the
retry loop runs from `attempt = 1` with fuel `maxRetries`. -/
def processItem (existsOnNAS : Bool) (transferOk cancelledDuringBackoff : Nat → Bool) :
    ProcTrace :=
  if existsOnNAS then
    { sleeps := [], transferCalls := 0, retryCount := 0,
      status := .completed, requeued := false, scheduledCleanup := true }
  else
    processItemLoop transferOk cancelledDuringBackoff maxRetries 1 [] 0 0

/-- The restore loop of `LoadState` (queue.go 260-264): starting from the
fresh empty heap built in `NewTransferQueue`, each snapshot entry whose
status is Pending or Failed is pushed, unchanged; every other entry is
skipped.  The heap is modelled by the list of pushed items in push order
(the claims here concern membership, not pop order). -/
def loadStateRestore (snapshot : List TransferItem) : List TransferItem :=
  snapshot.foldl
    (fun acc item =>
      if item.status = .pending ∨ item.status = .failed then acc ++ [item] else acc)
    []

/-- Result of one `client.Do(req)` call inside `DownloadSegment`
(segment.go 45): either a transport error or a response with an HTTP status
code and a body of `bodyLen` bytes. -/
inductive HttpResp where
  | netErr
  | status (code : Nat) (bodyLen : Nat)
deriving DecidableEq, Repr

/-- Result of `DownloadSegment` (segment.go 33-84). -/
inductive DlResult where
  /-- A `nil` error: the segment was written. -/
  | ok
  /-- The transport error from `client.Do`, returned on the second attempt. -/
  | netErr
  /-- The `*httpClient.HttpError` with the given code. -/
  | httpStatus (code : Nat)
  /-- A local file-system error (MkdirAll, Create or Copy). -/
  | ioErr
  /-- The `zero-byte download` error (segment.go 78-80). -/
  | zeroByte
  /-- The `exhausted retries` error after the loop (segment.go 83);
  unreachable, every iteration either returns or continues into the next. -/
  | exhausted
deriving DecidableEq, Repr

/-- Observable trace of one `DownloadSegment` call. -/
structure DlTrace where
  /-- The `time.Sleep` pauses taken, in milliseconds, in order. -/
  sleepsMs : List Nat
  /-- How many HTTP requests were issued. -/
  httpCalls : Nat
  result : DlResult
deriving DecidableEq, Repr

/-- The attempt loop of `DownloadSegment` (segment.go 34-82), with the
structural fuel `remaining = 2 - attempt`; the loop runs while
`attempt < 2`.  `resp a` is the outcome of attempt `a`'s HTTP call;
`mkdirOk a`, `createOk a` and `copyOk a` are the successes of that attempt's
`os.MkdirAll`, `os.Create` and `io.Copy`.  Per iteration: a 300 ms sleep
when `attempt > 0`; a transport error returns on the second attempt and
otherwise continues; a non-200 status continues when it is 403 on the first
attempt and otherwise returns `HttpStatus(code)`; on 200 the file is
created and the body copied, a zero-byte body is an error, else success. -/
def downloadSegmentLoop (resp : Nat → HttpResp) (mkdirOk createOk copyOk : Nat → Bool) :
    Nat → Nat → List Nat → Nat → DlTrace
  | 0, _, sleeps, calls => { sleepsMs := sleeps, httpCalls := calls, result := .exhausted }
  | remaining + 1, attempt, sleeps, calls =>
      let sleeps := if 0 < attempt then sleeps ++ [300] else sleeps
      match resp attempt with
      | .netErr =>
          if attempt = 1 then
            { sleepsMs := sleeps, httpCalls := calls + 1, result := .netErr }
          else
            downloadSegmentLoop resp mkdirOk createOk copyOk remaining (attempt + 1)
              sleeps (calls + 1)
      | .status code bodyLen =>
          if code ≠ 200 then
            if code = 403 ∧ attempt = 0 then
              downloadSegmentLoop resp mkdirOk createOk copyOk remaining (attempt + 1)
                sleeps (calls + 1)
            else
              { sleepsMs := sleeps, httpCalls := calls + 1, result := .httpStatus code }
          else
            if mkdirOk attempt then
              if createOk attempt then
                if copyOk attempt then
                  if bodyLen = 0 then
                    { sleepsMs := sleeps, httpCalls := calls + 1, result := .zeroByte }
                  else
                    { sleepsMs := sleeps, httpCalls := calls + 1, result := .ok }
                else { sleepsMs := sleeps, httpCalls := calls + 1, result := .ioErr }
              else { sleepsMs := sleeps, httpCalls := calls + 1, result := .ioErr }
            else { sleepsMs := sleeps, httpCalls := calls + 1, result := .ioErr }

/-- Model of `DownloadSegment` (segment.go 33-84): the loop starts at `attempt = 0`
with fuel 2. -/
def downloadSegment (resp : Nat → HttpResp) (mkdirOk createOk copyOk : Nat → Bool) :
    DlTrace :=
  downloadSegmentLoop resp mkdirOk createOk copyOk 2 0 [] 0

/-- Model of `SegmentInfo` of the post-processor (processing package). -/
structure SegmentInfo where
  Name : String
  SeqNo : Int
  Resolution : String
deriving DecidableEq, Repr

/-- The quality-rank lookup in `AggregateSegmentInfo` (service.go 203-212):
a Go map read, which yields the zero value `0` for any label outside the
table. -/
def rank (lbl : String) : Nat :=
  if lbl = "1080p" then 1
  else if lbl = "720p" then 2
  else if lbl = "540p" then 3
  else if lbl = "480p" then 4
  else if lbl = "450p" then 5
  else if lbl = "360p" then 6
  else if lbl = "270p" then 7
  else if lbl = "240p" then 8
  else 0

/-- Read of the Go map `segmentMap[seq]` with its `exists` flag. -/
def findSeq : List (Int × SegmentInfo) → Int → Option SegmentInfo
  | [], _ => none
  | (k', v) :: rest, k => if k' = k then some v else findSeq rest k

/-- Write of the Go map `segmentMap[seq] = segment`: replace the existing
binding or append a fresh one. -/
def setSeq : List (Int × SegmentInfo) → Int → SegmentInfo → List (Int × SegmentInfo)
  | [], k, v => [(k, v)]
  | (k', v') :: rest, k, v =>
      if k' = k then (k, v) :: rest else (k', v') :: setSeq rest k v

/-- The body of the receive loop of `AggregateSegmentInfo` (service.go
214-220): keep the incoming record when the key is absent or when its label
ranks strictly smaller than the stored one. -/
def aggStep (m : List (Int × SegmentInfo)) (seg : SegmentInfo) : List (Int × SegmentInfo) :=
  match findSeq m seg.SeqNo with
  | none => setSeq m seg.SeqNo seg
  | some current =>
      if rank seg.Resolution < rank current.Resolution then setSeq m seg.SeqNo seg
      else m

/-- Model of `AggregateSegmentInfo` (service.go 200-223) over the sequence of records
received on the channel, in receive order; the Go map is modelled as an
association list. -/
def aggregateSegmentInfo (received : List SegmentInfo) : List (Int × SegmentInfo) :=
  received.foldl aggStep []

/-- One entry of `os.ReadDir` as consumed by `ParseResolutionDirectory`:
its name and whether it is a directory.  File names are ASCII, so Go's
byte-wise `len`/slicing agrees with Lean's character counts. -/
structure DirEntry where
  name : String
  isDir : Bool
deriving DecidableEq, Repr

/-- Model of `strconv.Atoi` (success cases and errors only, the value fits easily):
an optional single leading `+` or `-` followed by one or more ASCII digits;
anything else is an error, modelled as `none`. -/
def goAtoi (s : String) : Option Int :=
  match s.data with
  | [] => none
  | c :: rest =>
      let digits := if c = '-' ∨ c = '+' then rest else c :: rest
      if digits ≠ [] ∧ digits.all (fun d => d.isDigit) then
        let n : Nat := digits.foldl (fun acc d => acc * 10 + (d.toNat - 48)) 0
        some (if c = '-' then -(n : Int) else (n : Int))
      else none

/-- The zero-based substring `name[6:10]` of a Go string, defined only when
the slice is in bounds. -/
def sliceSixToTen (name : String) : String :=
  String.mk ((name.data.drop 6).take 4)

/-- Model of `strings.ToLower` as applied to the ASCII file names handled here:
lower each character. -/
def goToLower (cs : List Char) : List Char :=
  cs.map Char.toLower

/-- Model of `strings.HasSuffix`: the character list `post` is a suffix of `s`. -/
def goHasSuffix (s post : List Char) : Bool :=
  decide (post.length ≤ s.length) && (s.drop (s.length - post.length) == post)

/-- Outcome of the file loop of `ParseResolutionDirectory`
(service.go 181-197): either the loop finished and emitted `emitted` to the
channel, or a runtime panic aborted it after emitting `emitted`. -/
inductive ParseOutcome where
  | panicked (emitted : List SegmentInfo)
  | finished (emitted : List SegmentInfo)
deriving DecidableEq, Repr

/-- The file loop of `ParseResolutionDirectory` (service.go 181-197).
Directories are skipped; a file whose lower-cased name does not end in
`.ts` is skipped; otherwise `file.Name()[6:10]` is evaluated — a Go string
slice that panics with `slice bounds out of range` whenever the name is
shorter than 10 bytes — and fed to `strconv.Atoi`; a parse error logs and
continues, a parsed value emits `(name, seq, resolution)`. -/
def parseResolutionDirectory (resolution : String) :
    List DirEntry → List SegmentInfo → ParseOutcome
  | [], acc => .finished acc
  | f :: rest, acc =>
      if f.isDir then parseResolutionDirectory resolution rest acc
      else if ¬ (goHasSuffix (goToLower f.name.data) ".ts".data = true) then
        parseResolutionDirectory resolution rest acc
      else if f.name.length < 10 then .panicked acc
      else
        match goAtoi (sliceSixToTen f.name) with
        | none => parseResolutionDirectory resolution rest acc
        | some no =>
            parseResolutionDirectory resolution rest
              (acc ++ [{ Name := f.name, SeqNo := no, Resolution := resolution }])

/-- C1: the claim says a failed media-playlist fetch is logged and the poller
proceeds to the refresh-delay wait without crashing.  In the source the
iteration reads `seq := playlist.SeqNo` (stream.go 117) *before* the error
check (stream.go 118), and every error path of `LoadMediaPlaylist` returns a
nil playlist, so the iteration dereferences a nil pointer and panics instead
of reaching the wait — for every poller state. -/
theorem variantIteration_fetch_error_panics (st : PollerState) :
    variantIteration none st = IterResult.panicked st := rfl

/-- C2: replaying the repository's own test input
(`TestManifestWriter_AddOrUpdateSegment`): after adding sequence `"1001"` at
`"1080p"` and then upgrading it to `"1440p"`, the record `WriteManifest`
serialises still carries `"1080p"` — the upgrade lands only in the separate
record the index points to, never in the `Segments` slice. -/
theorem writeManifest_upgrade_lost :
    writeManifest
        (addOrUpdateSegment (addOrUpdateSegment ManifestWriter.empty "1001" "1080p")
          "1001" "1440p") =
      [{ SeqNo := "1001", Resolution := "1080p" }] ∧
    (addOrUpdateSegment (addOrUpdateSegment ManifestWriter.empty "1001" "1080p")
          "1001" "1440p").Index =
      [("1001", "1440p")] := by
  constructor <;> decide

/-- C4: the ticker `VariantDownloader` blocks on between refreshes is built
as `time.NewTicker(constants.RefreshDelay)` from the untyped constant `3`,
which converts to `time.Duration(3)` — a period of 3 *nanoseconds*, not the
3 seconds that the configuration layer (default `3 * time.Second`, env
`REFRESH_DELAY_SECONDS`) prescribes. -/
theorem variantTickerPeriod_is_nanoseconds :
    variantTickerPeriodNs = 3 ∧
    configRefreshDelayNs = 3 * nanosPerSecond ∧
    variantTickerPeriodNs ≠ configRefreshDelayNs := by
  refine ⟨rfl, rfl, ?_⟩
  decide

/-- C7 counterexample: a snapshot whose only entry is InProgress restores
nothing — the entry is discarded by `LoadState`, not restored as Pending as
the claim states. -/
theorem loadStateRestore_drops_inProgress :
    loadStateRestore
        [{ id := "i1", sourcePath := "s", destinationPath := "d",
           resolution := "1080p", timestamp := 0, retryCount := 0,
           status := .inProgress, fileSize := 10, lastError := "" }] = [] := rfl

/-- C7 amended: `LoadState` restores exactly the snapshot entries whose
status is Pending or Failed, each unchanged and in snapshot order;
InProgress and Retrying entries are discarded (queue.go 260-264 pushes only
Pending and Failed). -/
theorem loadStateRestore_filter (snapshot : List TransferItem) :
    loadStateRestore snapshot =
      snapshot.filter (fun i => i.status == .pending || i.status == .failed) := by
  have go : ∀ (l acc : List TransferItem),
      l.foldl
        (fun acc item =>
          if item.status = .pending ∨ item.status = .failed then acc ++ [item] else acc)
        acc =
      acc ++ l.filter (fun i => i.status == .pending || i.status == .failed) := by
    intro l
    induction l with
    | nil => intro acc; simp
    | cons x xs ih =>
        intro acc
        by_cases h : x.status = .pending ∨ x.status = .failed
        · have hb : (x.status == TransferStatus.pending || x.status == TransferStatus.failed)
              = true := by
            rcases h with h | h <;> simp [h]
          simp only [List.foldl_cons, List.filter_cons, if_pos h, hb, ih]
          simp
        · have hb : (x.status == TransferStatus.pending || x.status == TransferStatus.failed)
              = false := by
            push_neg at h
            simp [h.1, h.2]
          simp only [List.foldl_cons, List.filter_cons, if_neg h, hb, ih]
          simp
  exact go snapshot []

/-- C5 counterexample: the destination is absent and the very first transfer
attempt succeeds, yet the worker has already slept — the first attempt does
not start immediately: the loop counter starts at 1, so the guard
`attempt > 0` (queue.go 170) holds on the first iteration and a 1-second
backoff precedes attempt 1. -/
theorem processItem_first_attempt_delayed :
    processItem false (fun _ => true) (fun _ => false) =
      { sleeps := [1], transferCalls := 1, retryCount := 0,
        status := .completed, requeued := false, scheduledCleanup := true } ∧
    (processItem false (fun _ => true) (fun _ => false)).sleeps ≠ [] := by
  constructor
  · rfl
  · intro h
    simp [processItem, processItemLoop, maxRetries] at h

/-- C5 amended: when the destination does not already exist the worker makes
up to 3 total attempts, and a backoff of `attempt²` seconds precedes *every*
attempt, including the first — 1 s before attempt 1, 4 s before attempt 2,
9 s before attempt 3; after the third failed attempt the item is marked
Failed with retry count 3 and is not handed to cleanup. -/
theorem processItem_backoff_schedule (transferOk : Nat → Bool)
    (hfail : ∀ a, transferOk a = false) :
    processItem false transferOk (fun _ => false) =
      { sleeps := [1, 4, 9], transferCalls := 3, retryCount := 3,
        status := .failed, requeued := false, scheduledCleanup := false } := by
  simp [processItem, processItemLoop, maxRetries, hfail 1, hfail 2, hfail 3]

/-- C5 amended, witness: the all-failures run at concrete inputs. -/
theorem processItem_backoff_schedule_witness :
    processItem false (fun _ => false) (fun _ => false) =
      { sleeps := [1, 4, 9], transferCalls := 3, retryCount := 3,
        status := .failed, requeued := false, scheduledCleanup := false } :=
  processItem_backoff_schedule (fun _ => false) (fun _ => rfl)

/-- C6 counterexample: cancellation fires during the backoff before the
first attempt.  The worker returns with the item's local copy in status
Retrying and never pushes the item back into the queue — nothing restores it
as Pending, contrary to the claim. -/
theorem processItem_cancel_drops_item :
    (processItem false (fun _ => false) (fun a => a == 1)).requeued = false ∧
    (processItem false (fun _ => false) (fun a => a == 1)).status = .retrying ∧
    (processItem false (fun _ => false) (fun a => a == 1)).status ≠ .pending := by
  refine ⟨rfl, rfl, ?_⟩
  intro h
  simp [processItem, processItemLoop, maxRetries] at h

/-- C6 amended: whenever `ctx.Done()` fires during the backoff that precedes
the first attempt, `processItem` returns immediately (queue.go 177-179): no
transfer is attempted, the item is not re-queued, and the worker's local
copy is left in status Retrying — the item is dropped from the queue system
(dispatch had already popped it from the heap). -/
theorem processItem_cancelled_in_backoff (transferOk cancelled : Nat → Bool)
    (hc : cancelled 1 = true) :
    processItem false transferOk cancelled =
      { sleeps := [], transferCalls := 0, retryCount := 0,
        status := .retrying, requeued := false, scheduledCleanup := false } := by
  simp [processItem, processItemLoop, maxRetries, hc]

/-- C6 amended, witness: cancellation during the first backoff at concrete
inputs. -/
theorem processItem_cancelled_in_backoff_witness :
    processItem false (fun _ => false) (fun _ => true) =
      { sleeps := [], transferCalls := 0, retryCount := 0,
        status := .retrying, requeued := false, scheduledCleanup := false } :=
  processItem_cancelled_in_backoff (fun _ => false) (fun _ => true) rfl

/-- One pass of the segment loop extends `seen` and `downloads` by one and
the same list of fresh keys: every newly spawned download corresponds to a
newly inserted key, the fresh keys are pairwise distinct, and none of them
was in the seen-set before. -/
theorem processSegments_delta (segs : List (Option String)) (seq : Nat) (st : PollerState) :
    ∃ new : List String,
      (processSegments segs seq st).seen = st.seen ++ new ∧
      (processSegments segs seq st).downloads = st.downloads ++ new ∧
      new.Nodup ∧ ∀ k ∈ new, k ∉ st.seen := by
  induction segs generalizing seq st with
  | nil =>
      exact ⟨[], by simp [processSegments]⟩
  | cons seg rest ih =>
      match seg with
      | none =>
          simpa [processSegments] using ih seq st
      | some uri =>
          by_cases hmem : segmentKey seq uri ∈ st.seen
          · have h := ih (seq + 1) st
            simpa [processSegments, hmem] using h
          · obtain ⟨new', hseen, hdl, hnd, hfresh⟩ :=
              ih (seq + 1)
                { seen := st.seen ++ [segmentKey seq uri],
                  downloads := st.downloads ++ [segmentKey seq uri] }
            refine ⟨segmentKey seq uri :: new', ?_, ?_, ?_, ?_⟩
            · simpa [processSegments, hmem, List.append_assoc] using hseen
            · simpa [processSegments, hmem, List.append_assoc] using hdl
            · refine List.nodup_cons.mpr ⟨?_, hnd⟩
              intro hk
              exact hfresh _ hk (by simp)
            · intro k hk
              rcases List.mem_cons.mp hk with hk | hk
              · exact hk ▸ hmem
              · intro hks
                exact hfresh k hk (by simp [hks])

/-- Delta form of a whole run: across any sequence of fetched playlists the
seen-set and the download trace grow by one and the same duplicate-free list
of keys, none of which was seen before the run. -/
theorem runPlaylists_delta (pls : List MediaPlaylist) (st : PollerState) :
    ∃ new : List String,
      (runPlaylists pls st).seen = st.seen ++ new ∧
      (runPlaylists pls st).downloads = st.downloads ++ new ∧
      new.Nodup ∧ ∀ k ∈ new, k ∉ st.seen := by
  induction pls generalizing st with
  | nil =>
      exact ⟨[], by simp [runPlaylists]⟩
  | cons pl rest ih =>
      obtain ⟨n1, hs1, hd1, hnd1, hf1⟩ := processSegments_delta pl.Segments pl.SeqNo st
      obtain ⟨n2, hs2, hd2, hnd2, hf2⟩ := ih (processSegments pl.Segments pl.SeqNo st)
      have hrun : runPlaylists (pl :: rest) st =
          runPlaylists rest (processSegments pl.Segments pl.SeqNo st) := by
        simp [runPlaylists]
      refine ⟨n1 ++ n2, ?_, ?_, ?_, ?_⟩
      · rw [hrun, hs2, hs1, List.append_assoc]
      · rw [hrun, hd2, hd1, List.append_assoc]
      · refine List.nodup_append.mpr ⟨hnd1, hnd2, ?_⟩
        intro k hk1 hk2
        exact hf2 k hk2 (by rw [hs1]; exact List.mem_append.mpr (Or.inr hk1))
      · intro k hk
        rcases List.mem_append.mp hk with hk | hk
        · exact hf1 k hk
        · intro hks
          exact hf2 k hk (by rw [hs1]; exact List.mem_append.mpr (Or.inl hks))

/-- C3: across any run of the variant poller, the seen-set only ever grows
(`seen` is extended, never shrunk), the keys handed to the segment download
are exactly the newly inserted keys — so a key already in the seen-set is
never downloaded again — and, starting from the fresh state of
`VariantDownloader`, the download trace equals the seen-set and is
duplicate-free: the download is invoked exactly once per observed key. -/
theorem variantPoller_download_once (pls : List MediaPlaylist) (st : PollerState) :
    (∃ new : List String,
      (runPlaylists pls st).seen = st.seen ++ new ∧
      (runPlaylists pls st).downloads = st.downloads ++ new ∧
      new.Nodup ∧ ∀ k ∈ new, k ∉ st.seen) ∧
    (runPlaylists pls { seen := [], downloads := [] }).downloads =
      (runPlaylists pls { seen := [], downloads := [] }).seen ∧
    (runPlaylists pls { seen := [], downloads := [] }).downloads.Nodup := by
  refine ⟨runPlaylists_delta pls st, ?_, ?_⟩
  · obtain ⟨new, hs, hd, _, _⟩ := runPlaylists_delta pls { seen := [], downloads := [] }
    rw [hs, hd]
  · obtain ⟨new, _, hd, hnd, _⟩ := runPlaylists_delta pls { seen := [], downloads := [] }
    rw [hd]
    simpa using hnd

/-- C8: `DownloadSegment` makes at most two attempts; whenever it reaches a
second attempt exactly one 300 ms pause was taken, and a single attempt
sleeps not at all.  A 403 on the first attempt always leads to a second
attempt (after the pause); a 403 on the second attempt fails with
`HttpStatus(403)`; any other non-200 on the first attempt fails immediately
— one HTTP call, no sleep — with `HttpStatus(code)`, and a non-200 on the
second attempt fails with `HttpStatus(code)`; a 403 followed by a 200 with a
non-empty body and working local file I/O succeeds. -/
theorem downloadSegment_retry_policy (resp : Nat → HttpResp)
    (mkdirOk createOk copyOk : Nat → Bool) :
    ((downloadSegment resp mkdirOk createOk copyOk).httpCalls ≤ 2) ∧
    (∀ b0 : Nat, resp 0 = .status 403 b0 →
      (downloadSegment resp mkdirOk createOk copyOk).httpCalls = 2 ∧
      (downloadSegment resp mkdirOk createOk copyOk).sleepsMs = [300]) ∧
    (∀ b0 b1 : Nat, resp 0 = .status 403 b0 → resp 1 = .status 403 b1 →
      (downloadSegment resp mkdirOk createOk copyOk).result = .httpStatus 403) ∧
    (∀ code b0 : Nat, resp 0 = .status code b0 → code ≠ 200 → code ≠ 403 →
      downloadSegment resp mkdirOk createOk copyOk =
        { sleepsMs := [], httpCalls := 1, result := .httpStatus code }) ∧
    (∀ b0 code b1 : Nat, resp 0 = .status 403 b0 → resp 1 = .status code b1 →
      code ≠ 200 →
      (downloadSegment resp mkdirOk createOk copyOk).result = .httpStatus code) ∧
    (∀ b0 b1 : Nat, resp 0 = .status 403 b0 → resp 1 = .status 200 b1 →
      mkdirOk 1 = true → createOk 1 = true → copyOk 1 = true → b1 ≠ 0 →
      (downloadSegment resp mkdirOk createOk copyOk).result = .ok) := by
  refine ⟨?_, ?_, ?_, ?_, ?_, ?_⟩
  · cases h0 : resp 0 with
    | netErr =>
        cases h1 : resp 1 with
        | netErr => simp [downloadSegment, downloadSegmentLoop, h0, h1]
        | status code b =>
            by_cases hc : code = 200
            · subst hc
              by_cases hm : mkdirOk 1 <;> by_cases hcr : createOk 1 <;>
                by_cases hk : copyOk 1 <;> by_cases hb : b = 0 <;>
                simp [downloadSegment, downloadSegmentLoop, h0, h1, hm, hcr, hk, hb]
            · by_cases h403 : code = 403 <;>
                simp [downloadSegment, downloadSegmentLoop, h0, h1, hc, h403]
    | status code b =>
        by_cases hc : code = 200
        · subst hc
          by_cases hm : mkdirOk 0 <;> by_cases hcr : createOk 0 <;>
            by_cases hk : copyOk 0 <;> by_cases hb : b = 0 <;>
            simp [downloadSegment, downloadSegmentLoop, h0, hm, hcr, hk, hb]
        · by_cases h403 : code = 403
          · subst h403
            cases h1 : resp 1 with
            | netErr => simp [downloadSegment, downloadSegmentLoop, h0, h1, hc]
            | status code2 b2 =>
                by_cases hc2 : code2 = 200
                · subst hc2
                  by_cases hm : mkdirOk 1 <;> by_cases hcr : createOk 1 <;>
                    by_cases hk : copyOk 1 <;> by_cases hb : b2 = 0 <;>
                    simp [downloadSegment, downloadSegmentLoop, h0, h1, hm, hcr, hk, hb]
                · simp [downloadSegment, downloadSegmentLoop, h0, h1, hc, hc2]
          · simp [downloadSegment, downloadSegmentLoop, h0, hc, h403]
  · intro b0 h0
    cases h1 : resp 1 with
    | netErr => simp [downloadSegment, downloadSegmentLoop, h0, h1]
    | status code2 b2 =>
        by_cases hc2 : code2 = 200
        · subst hc2
          by_cases hm : mkdirOk 1 <;> by_cases hcr : createOk 1 <;>
            by_cases hk : copyOk 1 <;> by_cases hb : b2 = 0 <;>
            simp [downloadSegment, downloadSegmentLoop, h0, h1, hm, hcr, hk, hb]
        · by_cases h403 : code2 = 403 <;>
            simp [downloadSegment, downloadSegmentLoop, h0, h1, hc2, h403]
  · intro b0 b1 h0 h1
    simp [downloadSegment, downloadSegmentLoop, h0, h1]
  · intro code b0 h0 hc h403
    simp [downloadSegment, downloadSegmentLoop, h0, hc, h403]
  · intro b0 code b1 h0 h1 hc
    by_cases h403 : code = 403 <;>
      simp [downloadSegment, downloadSegmentLoop, h0, h1, hc, h403]
  · intro b0 b1 h0 h1 hm hcr hk hb
    simp [downloadSegment, downloadSegmentLoop, h0, h1, hm, hcr, hk, hb]

/-- Reading back the key just written returns the written record. -/
theorem findSeq_setSeq_self (m : List (Int × SegmentInfo)) (k : Int) (v : SegmentInfo) :
    findSeq (setSeq m k v) k = some v := by
  induction m with
  | nil => simp [setSeq, findSeq]
  | cons p rest ih =>
      obtain ⟨k', v'⟩ := p
      by_cases h : k' = k
      · simp [setSeq, findSeq, h]
      · simp [setSeq, findSeq, h, ih]

/-- Writing one key leaves every other key's binding unchanged. -/
theorem findSeq_setSeq_ne (m : List (Int × SegmentInfo)) (k j : Int) (v : SegmentInfo)
    (h : j ≠ k) :
    findSeq (setSeq m k v) j = findSeq m j := by
  induction m with
  | nil => simp [setSeq, findSeq, Ne.symm h]
  | cons p rest ih =>
      obtain ⟨k', v'⟩ := p
      by_cases hk : k' = k
      · subst hk
        simp [setSeq, findSeq, Ne.symm h]
      · simp [setSeq, findSeq, hk, ih]

/-- One channel receive of `AggregateSegmentInfo` preserves the aggregation
invariant: every processed sequence number has a binding, and every binding
is a processed record of minimal rank among the processed records of its
sequence number. -/
theorem aggStep_preserves (processed : List SegmentInfo) (m : List (Int × SegmentInfo))
    (x : SegmentInfo)
    (hsome : ∀ s ∈ processed, (findSeq m s.SeqNo).isSome = true)
    (hmin : ∀ k seg, findSeq m k = some seg → seg.SeqNo = k ∧ seg ∈ processed ∧
        ∀ s ∈ processed, s.SeqNo = k → rank seg.Resolution ≤ rank s.Resolution) :
    (∀ s ∈ processed ++ [x], (findSeq (aggStep m x) s.SeqNo).isSome = true) ∧
    (∀ k seg, findSeq (aggStep m x) k = some seg →
        seg.SeqNo = k ∧ seg ∈ processed ++ [x] ∧
        ∀ s ∈ processed ++ [x], s.SeqNo = k → rank seg.Resolution ≤ rank s.Resolution) := by
  cases hcur : findSeq m x.SeqNo with
  | none =>
      have hagg : aggStep m x = setSeq m x.SeqNo x := by simp [aggStep, hcur]
      rw [hagg]
      constructor
      · intro s hs
        rcases List.mem_append.mp hs with hs | hs
        · by_cases hk : s.SeqNo = x.SeqNo
          · rw [hk, findSeq_setSeq_self]; rfl
          · rw [findSeq_setSeq_ne _ _ _ _ hk]; exact hsome s hs
        · have hx : s = x := by simpa using hs
          subst hx
          rw [findSeq_setSeq_self]; rfl
      · intro k seg hfind
        by_cases hk : k = x.SeqNo
        · subst hk
          rw [findSeq_setSeq_self] at hfind
          have hx : x = seg := Option.some.inj hfind
          subst hx
          refine ⟨rfl, by simp, ?_⟩
          intro s hs hsk
          rcases List.mem_append.mp hs with hs | hs
          · exfalso
            have := hsome s hs
            rw [hsk, hcur] at this
            simp at this
          · have hx : s = x := by simpa using hs
            subst hx
            exact le_refl _
        · rw [findSeq_setSeq_ne _ _ _ _ hk] at hfind
          obtain ⟨h1, h2, h3⟩ := hmin k seg hfind
          refine ⟨h1, List.mem_append.mpr (Or.inl h2), ?_⟩
          intro s hs hsk
          rcases List.mem_append.mp hs with hs | hs
          · exact h3 s hs hsk
          · have hx : s = x := by simpa using hs
            subst hx
            exact absurd hsk.symm hk
  | some cur =>
      by_cases hlt : rank x.Resolution < rank cur.Resolution
      · have hagg : aggStep m x = setSeq m x.SeqNo x := by simp [aggStep, hcur, hlt]
        rw [hagg]
        constructor
        · intro s hs
          rcases List.mem_append.mp hs with hs | hs
          · by_cases hk : s.SeqNo = x.SeqNo
            · rw [hk, findSeq_setSeq_self]; rfl
            · rw [findSeq_setSeq_ne _ _ _ _ hk]; exact hsome s hs
          · have hx : s = x := by simpa using hs
            subst hx
            rw [findSeq_setSeq_self]; rfl
        · intro k seg hfind
          by_cases hk : k = x.SeqNo
          · subst hk
            rw [findSeq_setSeq_self] at hfind
            have hx : x = seg := Option.some.inj hfind
            subst hx
            refine ⟨rfl, by simp, ?_⟩
            intro s hs hsk
            rcases List.mem_append.mp hs with hs | hs
            · have hcurmin := (hmin _ cur hcur).2.2 s hs hsk
              exact le_trans (le_of_lt hlt) hcurmin
            · have hx : s = x := by simpa using hs
              subst hx
              exact le_refl _
          · rw [findSeq_setSeq_ne _ _ _ _ hk] at hfind
            obtain ⟨h1, h2, h3⟩ := hmin k seg hfind
            refine ⟨h1, List.mem_append.mpr (Or.inl h2), ?_⟩
            intro s hs hsk
            rcases List.mem_append.mp hs with hs | hs
            · exact h3 s hs hsk
            · have hx : s = x := by simpa using hs
              subst hx
              exact absurd hsk.symm hk
      · have hagg : aggStep m x = m := by simp [aggStep, hcur, hlt]
        rw [hagg]
        constructor
        · intro s hs
          rcases List.mem_append.mp hs with hs | hs
          · exact hsome s hs
          · have hx : s = x := by simpa using hs
            subst hx
            rw [hcur]; rfl
        · intro k seg hfind
          obtain ⟨h1, h2, h3⟩ := hmin k seg hfind
          refine ⟨h1, List.mem_append.mpr (Or.inl h2), ?_⟩
          intro s hs hsk
          rcases List.mem_append.mp hs with hs | hs
          · exact h3 s hs hsk
          · have hx : s = x := by simpa using hs
            subst hx
            have hcc : cur = seg := by
              rw [← hsk, hcur] at hfind
              exact Option.some.inj hfind
            rw [← hcc]
            exact le_of_not_lt hlt


/-- The aggregation invariant carried over the whole receive loop. -/
theorem aggFold_preserves (rest : List SegmentInfo) :
    ∀ (processed : List SegmentInfo) (m : List (Int × SegmentInfo)),
    (∀ s ∈ processed, (findSeq m s.SeqNo).isSome = true) →
    (∀ k seg, findSeq m k = some seg → seg.SeqNo = k ∧ seg ∈ processed ∧
        ∀ s ∈ processed, s.SeqNo = k → rank seg.Resolution ≤ rank s.Resolution) →
    (∀ s ∈ processed ++ rest, (findSeq (rest.foldl aggStep m) s.SeqNo).isSome = true) ∧
    (∀ k seg, findSeq (rest.foldl aggStep m) k = some seg →
        seg.SeqNo = k ∧ seg ∈ processed ++ rest ∧
        ∀ s ∈ processed ++ rest, s.SeqNo = k → rank seg.Resolution ≤ rank s.Resolution) := by
  induction rest with
  | nil =>
      intro processed m hsome hmin
      simpa using ⟨hsome, hmin⟩
  | cons x rest ih =>
      intro processed m hsome hmin
      obtain ⟨hsome', hmin'⟩ := aggStep_preserves processed m x hsome hmin
      have h := ih (processed ++ [x]) (aggStep m x) hsome' hmin'
      simpa [List.append_assoc] using h

/-- C9: for every sequence number received on the aggregation channel there
is exactly one kept record; every kept record is one of the received records
of its sequence number and its label's quality rank is minimal among all
received records of that sequence number, under the fixed rank table —
1080p, 720p, 540p, 480p, 450p, 360p, 270p, 240p mapping to 1..8 — with
every label outside the table ranking as 0, the strict minimum, so that such
a label always wins against any listed one. -/
theorem aggregateSegmentInfo_min_rank (received : List SegmentInfo) :
    (∀ s ∈ received, (findSeq (aggregateSegmentInfo received) s.SeqNo).isSome = true) ∧
    (∀ k seg, findSeq (aggregateSegmentInfo received) k = some seg →
        seg.SeqNo = k ∧ seg ∈ received ∧
        ∀ s ∈ received, s.SeqNo = k → rank seg.Resolution ≤ rank s.Resolution) ∧
    (rank "1080p" = 1 ∧ rank "720p" = 2 ∧ rank "540p" = 3 ∧ rank "480p" = 4 ∧
      rank "450p" = 5 ∧ rank "360p" = 6 ∧ rank "270p" = 7 ∧ rank "240p" = 8) ∧
    (∀ lbl : String, lbl ≠ "1080p" → lbl ≠ "720p" → lbl ≠ "540p" → lbl ≠ "480p" →
      lbl ≠ "450p" → lbl ≠ "360p" → lbl ≠ "270p" → lbl ≠ "240p" → rank lbl = 0) := by
  have h := aggFold_preserves received [] []
    (by intro s hs; simp at hs)
    (by intro k seg hfind; simp [findSeq] at hfind)
  refine ⟨by simpa using h.1, by simpa using h.2, ?_, ?_⟩
  · refine ⟨rfl, ?_, ?_, ?_, ?_, ?_, ?_, ?_⟩ <;> decide
  · intro lbl h1 h2 h3 h4 h5 h6 h7 h8
    simp [rank, h1, h2, h3, h4, h5, h6, h7, h8]

/-- C10 counterexample: a directory containing the single regular file
`a.ts` — a `.ts` name of only 4 bytes — makes the enumeration evaluate
`"a.ts"[6:10]`, a slice out of bounds: the loop panics after emitting
nothing, instead of skipping the file and continuing. -/
theorem parseResolutionDirectory_short_ts_panics :
    parseResolutionDirectory "1080p" [{ name := "a.ts", isDir := false }] [] =
      ParseOutcome.panicked [] := by decide

/-- Generalised file loop: with every `.ts` name at least 10 bytes long, the
enumeration finishes and appends, in listing order, one record per `.ts`
file whose `name[6:10]` parses as a base-10 integer. -/
theorem parseResolutionDirectory_go (resolution : String) :
    ∀ files : List DirEntry,
    (∀ f ∈ files, f.isDir = false →
        goHasSuffix (goToLower f.name.data) ".ts".data = true → 10 ≤ f.name.length) →
    ∀ acc : List SegmentInfo,
    parseResolutionDirectory resolution files acc =
      .finished (acc ++ files.filterMap (fun f =>
        if f.isDir then none
        else if ¬ (goHasSuffix (goToLower f.name.data) ".ts".data = true) then none
        else
          match goAtoi (sliceSixToTen f.name) with
          | none => none
          | some no => some { Name := f.name, SeqNo := no, Resolution := resolution })) := by
  intro files
  induction files with
  | nil =>
      intro _ acc
      simp [parseResolutionDirectory]
  | cons f rest ih =>
      intro hlen acc
      have hrest := fun g hg => hlen g (List.mem_cons_of_mem f hg)
      by_cases hdir : f.isDir
      · simp [parseResolutionDirectory, hdir, List.filterMap_cons, ih hrest acc]
      · by_cases hts : goHasSuffix (goToLower f.name.data) ".ts".data = true
        · have h10 : ¬ (f.name.length < 10) := by
            have := hlen f (List.mem_cons_self f rest) (by simpa using hdir) hts
            omega
          cases hat : goAtoi (sliceSixToTen f.name) with
          | none =>
              simp [parseResolutionDirectory, hdir, hts, h10, hat,
                List.filterMap_cons, ih hrest acc]
          | some no =>
              have hstep := ih hrest
                (acc ++ [({ Name := f.name, SeqNo := no,
                            Resolution := resolution } : SegmentInfo)])
              simp [parseResolutionDirectory, hdir, hts, h10, hat,
                List.filterMap_cons, hstep, List.append_assoc]
        · simp [parseResolutionDirectory, hdir, hts, List.filterMap_cons, ih hrest acc]

/-- C10 amended: the post-processor's bucket enumeration parses each file's
sequence number from the zero-based substring `name[6:10]` as a base-10
integer and skips, continuing, any file whose substring does not parse —
provided every `.ts` filename in the listing is at least 10 bytes long.  (A
shorter `.ts` name makes the slice expression panic and aborts the
enumeration, see the counterexample.) -/
theorem parseResolutionDirectory_parse_and_skip (resolution : String) (files : List DirEntry)
    (hlen : ∀ f ∈ files, f.isDir = false →
        goHasSuffix (goToLower f.name.data) ".ts".data = true → 10 ≤ f.name.length) :
    parseResolutionDirectory resolution files [] =
      .finished (files.filterMap (fun f =>
        if f.isDir then none
        else if ¬ (goHasSuffix (goToLower f.name.data) ".ts".data = true) then none
        else
          match goAtoi (sliceSixToTen f.name) with
          | none => none
          | some no => some { Name := f.name, SeqNo := no, Resolution := resolution })) := by
  simpa using parseResolutionDirectory_go resolution files hlen []

/-- C10 amended, witness: a listing with one parsable and one unparsable
`.ts` name. -/
theorem parseResolutionDirectory_parse_and_skip_witness :
    parseResolutionDirectory "1080p"
        [{ name := "abcdef1234.ts", isDir := false },
         { name := "nodigitsxx.ts", isDir := false }] [] =
      ParseOutcome.finished
        [{ Name := "abcdef1234.ts", SeqNo := 1234, Resolution := "1080p" }] := by
  have h := parseResolutionDirectory_parse_and_skip "1080p"
      [{ name := "abcdef1234.ts", isDir := false },
       { name := "nodigitsxx.ts", isDir := false }]
      (by decide)
  rw [h]
  decide

end FloDownload
